import Mathlib

/-!
Verification of picterm (artemsen/picterm): a shallow embedding of the
image transform pipeline (image.cpp), the loader dispatch (image_ldr.cpp)
and the viewport geometry engine (viewer.cpp), with theorems settling the
specification claims.

The C++ code computes scale factors and resized dimensions in IEEE-754
single precision (`float`) and double precision (`double`).  All float
values arising in that code are nonnegative, finite and normal, so each
one is an exact dyadic rational m / 2^d.  We model every floating-point
operation as "exact rational operation, then round to nearest with ties
to even at 24 (float) or 53 (double) significand bits", which is exactly
IEEE-754 semantics in the normal range.  Everything is computed on Nat
so that concrete instances evaluate inside the kernel.
-/

/-- A nonnegative dyadic rational with value `m / 2^d`: the exact value of a
nonnegative finite IEEE binary floating-point number. -/
structure Dyadic where
  m : Nat
  d : Nat
deriving DecidableEq

/-- Fuel-driven floor of log2; `log2fuel fuel n` is correct whenever
`n ≤ fuel` (see `log2fuel_spec`). Structural recursion so that the kernel
can evaluate it. -/
def log2fuel : Nat → Nat → Nat
  | 0, _ => 0
  | fuel+1, n => if n < 2 then 0 else log2fuel fuel (n / 2) + 1

/-- Greatest `e` with `2^e ≤ n`, for `n ≥ 1`. -/
def natLog2 (n : Nat) : Nat := log2fuel n n

/-- The binade of the positive rational `a / b`: the `e : ℤ` with
`2^e ≤ a/b < 2^(e+1)`.  Computed by scaling the numerator so that the
quotient is at least 1 and taking the integer log of its floor. -/
def dyLog (a b : Nat) : Int :=
  let S := natLog2 b + 1
  (natLog2 (a * 2^S / b) : Int) - (S : Int)

/-- Round the nonnegative rational `N / D` (`D > 0`, the quotient lying in
`[2^(prec-1), 2^prec)` at the call sites) to the nearest integer, ties to
even. -/
def roundNE (N D : Nat) : Nat :=
  let q := N / D
  let r := N % D
  if 2 * r < D then q
  else if D < 2 * r then q + 1
  else if q % 2 = 0 then q else q + 1

/-- IEEE-754 round-to-nearest-even of the nonnegative rational `a / b`
(`b > 0`) to a `prec`-bit significand (no overflow/underflow handling:
every value in this development is in the normal range). -/
def rndRat (prec a b : Nat) : Dyadic :=
  if a = 0 then ⟨0, 0⟩
  else
    match dyLog a b - ((prec : Int) - 1) with
    | .ofNat k => ⟨roundNE a (b * 2^k) * 2^k, 0⟩
    | .negSucc k => ⟨roundNE (a * 2^(k+1)) b, k + 1⟩

/-- C++ conversion of a nonnegative integer (`size_t`/`int`) to `float`. -/
def toF32 (n : Nat) : Dyadic := rndRat 24 n 1

/-- IEEE double division of the double `x` by the exact integer `n`
(the integer literal `100.0` in the source). -/
def f64divNat (x : Dyadic) (n : Nat) : Dyadic := rndRat 53 x.m (n * 2^x.d)

/-- C++ conversion `double → float` (assignment of a double expression to a
`float` variable). -/
def f64toF32 (x : Dyadic) : Dyadic := rndRat 24 x.m (2^x.d)

/-- IEEE single-precision multiplication. -/
def f32mul (x y : Dyadic) : Dyadic := rndRat 24 (x.m * y.m) (2^(x.d + y.d))

/-- IEEE single-precision division. -/
def f32div (x y : Dyadic) : Dyadic := rndRat 24 (x.m * 2^y.d) (y.m * 2^x.d)

/-- IEEE single-precision reciprocal `1.0f / y`. -/
def f32recip (y : Dyadic) : Dyadic := rndRat 24 (2^y.d) y.m

/-- C++ conversion of a nonnegative `float` value to an unsigned integer:
truncation toward zero. -/
def truncF (x : Dyadic) : Nat := x.m / 2^x.d

/-!  ## image.hpp / image.cpp  -/

/-- image.hpp: RGBA image container (32 bits per pixel, 0xAARRGGBB).
`data` is row-major, top-to-bottom; each pixel is a `uint32_t`, modelled as
a `Nat` (well-formed images keep every entry below `2^32`). -/
structure image where
  data : List Nat
  width : Nat
  height : Nat
  transparent : Bool

/-- image.cpp, `image::resize(percent)`:

    const float scale = static_cast<float>(percent) / 100.0;
    img.width = scale * width;
    img.height = scale * height;
    ...
    row_src = static_cast<size_t>(static_cast<float>(y) / scale) * width;
    img.data[row_dst + x] = data[row_src + static_cast<size_t>(static_cast<float>(x) / scale)];

`percent / 100.0` is a double division (`100.0` is a double literal) whose
result is rounded to `float` on assignment; `scale * width` converts
`width` to `float`, multiplies in single precision and truncates to
`size_t`.  The nested y/x write loops over the destination are modelled by
a row-major `bind`/`map` over `range`; out-of-range source reads (which
the C++ never performs for the inputs considered here) default to 0. -/
def image.resize (img : image) (percent : Nat) : image :=
  let scale : Dyadic := f64toF32 (f64divNat (toF32 percent) 100)
  let w' : Nat := truncF (f32mul scale (toF32 img.width))
  let h' : Nat := truncF (f32mul scale (toF32 img.height))
  { width := w', height := h', transparent := img.transparent,
    data := (List.range h').flatMap (fun y =>
      (List.range w').map (fun x =>
        img.data.getD
          (truncF (f32div (toF32 y) scale) * img.width
            + truncF (f32div (toF32 x) scale)) 0)) }

/-- image.cpp, the pixel update inside `image::add_grid`: integer alpha
blend of background `bkg` behind pixel `dst` with alpha `alpha ≠ 255`
(`ra = 255 - alpha`).  The C++ masks `~0xff`, `~0xffff`, `~0xffffff` are
the `uint32_t` constants `0xFFFFFF00`, `0xFFFF0000`, `0xFF000000`. -/
def blendPixel (bkg dst alpha : Nat) : Nat :=
  let ra := 255 - alpha
  ((((bkg >>> 0) &&& 0xff) * ra + ((dst >>> 0) &&& 0xff) * alpha) >>> 8) |||
  (((((bkg >>> 8) &&& 0xff) * ra + ((dst >>> 8) &&& 0xff) * alpha)) &&& 0xFFFFFF00) |||
  (((((bkg >>> 16) &&& 0xff) * ra + ((dst >>> 16) &&& 0xff) * alpha) <<< 8) &&& 0xFFFF0000) |||
  (((((bkg >>> 24) &&& 0xff) * ra + ((dst >>> 24) &&& 0xff) * alpha) <<< 16) &&& 0xFF000000)

/-- image.cpp, `image::add_grid(step = 10, clr = 0x404040)`: checkerboard
background for transparent images.  `clr2 = clr - 0x00101010` is a
`uint32_t` subtraction (wraps modulo `2^32`).  The C++ double loop writes
`img.data[x + y * width]` for `y < height`, `x < width`; flattened here to
a map over the indices `i < width * height` with `x = i % width`,
`y = i / width` (the same index set, since the data is row-major).
A pixel is touched only when its alpha byte `*pixel >> 24` differs from
`0xff`; the cell color is `clr` when `(x / step) % 2 ≠ (y / step) % 2`
and `clr2` otherwise. -/
def image.add_grid (img : image) (step : Nat := 10) (clr : Nat := 0x404040) : image :=
  let clr2 := (clr + 2^32 - 0x00101010) % 2^32
  { img with data := (List.range img.data.length).map (fun i =>
      let pix := img.data.getD i 0
      if i < img.width * img.height then
        let x := i % img.width
        let y := i / img.width
        let alpha := (pix >>> 24) % 256
        if alpha ≠ 255 then
          let bkg := if (x / step) % 2 ≠ (y / step) % 2 then clr else clr2
          blendPixel bkg pix alpha
        else pix
      else pix) }

/-!  ## image_ldr.cpp  -/

/-- Result of `load_image`.  `sys_error` models the `std::system_error`
thrown when opening or reading the 16-byte header fails; `unsupported`
models `std::runtime_error("Unsupported format")`; `decoded fmt` models a
successful dispatch to the decoder of the matching loader (the decoders
themselves wrap external codec libraries and are kept abstract). -/
inductive load_result
  | sys_error
  | unsupported
  | decoded (desc : String)
deriving DecidableEq

/-- image_ldr.cpp, `jpg_check`: the header starts with 0xFF 0xD8. -/
def jpg_check (header : List Nat) : Bool := header.take 2 == [0xff, 0xd8]

/-- image_ldr.cpp, `png_check`: the 8-byte PNG signature. -/
def png_check (header : List Nat) : Bool :=
  header.take 8 == [0x89, 0x50, 0x4E, 0x47, 0x0D, 0x0A, 0x1A, 0x0A]

/-- image_ldr.cpp, `gif_check`: the header starts with "GIF". -/
def gif_check (header : List Nat) : Bool := header.take 3 == [0x47, 0x49, 0x46]

/-- image_ldr.cpp, `load_image`: reads a 16-byte header
(`fread(...) != header.size()` throws `std::system_error` — for a regular
file this happens exactly when the readable content is shorter than 16
bytes), rewinds, then walks the `loaders` table in order (JPEG, PNG, GIF)
and dispatches to the first matching decoder; if none matches it throws
`std::runtime_error("Unsupported format")`.  The file is modelled as its
byte content. -/
def load_image (file : List Nat) : load_result :=
  if file.length < 16 then .sys_error
  else
    let header := file.take 16
    if jpg_check header then .decoded "JPEG (libjpeg)"
    else if png_check header then .decoded "PNG (libpng)"
    else if gif_check header then .decoded "GIF (libgif)"
    else .unsupported

/-!  ## viewer.cpp  -/

/-- viewer.cpp constants. -/
def scale_min : Nat := 1
/-- Maximum scale (1000%). -/
def scale_max : Nat := 1000
/-- Scale step used on zoom in/out. -/
def scale_step : Nat := 5
/-- Move step used on positioning. -/
def move_step : Nat := 10

/-- The value of the signed 64-bit quantity `z` after C++ usual arithmetic
conversions to `size_t` (conversion is reduction modulo `2^64`). -/
def wrap64 (z : Int) : Nat := (z % (2^64 : Int)).toNat

/-- viewer.cpp, `viewer::refresh`, placement of one axis (lines 50-61 for
x, 63-74 for y, which are identical up to renaming):

    if (img.width < wnd_w) {
        img_x = wnd_w / 2 - img.width / 2;
    } else {
        const ssize_t delta = static_cast<ssize_t>(wnd_.img_w()) - img.width;
        img_x = wnd_.img_x() + delta / 2;
        if (img_x > 0) {
            img_x = 0;
        } else if (img_x + img.width < wnd_w) {
            img_x = wnd_w - img.width;
        }
    }

`wnd`/`img` are the window and new displayed sizes, `old_x`/`old_w` the
previous position and size (from the x11 window object).  `delta / 2` is
C++ signed division, truncating toward zero: `Int.tdiv`.  In
`img_x + img.width < wnd_w` the `ssize_t` operand converts to `size_t`,
so the comparison happens modulo `2^64`: `wrap64`.  The assignment
`img_x = wnd_w - img.width` computes in `size_t` and converts back to
`ssize_t`, which for the magnitudes below `2^63` used here equals the
integer difference. -/
def viewer.refresh_axis (wnd img : Nat) (old_x : Int) (old_w : Nat) : Int :=
  if img < wnd then
    ((wnd / 2 - img / 2 : Nat) : Int)
  else
    let delta : Int := (old_w : Int) - (img : Int)
    let x := old_x + Int.tdiv delta 2
    if x > 0 then 0
    else if wrap64 (x + (img : Int)) < wnd then (wnd : Int) - (img : Int)
    else x

/-- viewer.hpp, `scale_op`. -/
inductive scale_op
  | zoom_in
  | zoom_out
  | optimal

/-- viewer.cpp, one axis of the `scale_op::optimal` branch:
`100 * (1.0f / (static_cast<float>(img) / wnd))`, truncated by the
assignment to the `size_t` variable `scale`. -/
def opt_axis (wnd img : Nat) : Nat :=
  truncF (f32mul (toF32 100) (f32recip (f32div (toF32 img) (toF32 wnd))))

/-- viewer.cpp, `viewer::calc_scale` (the new value of `scale`; the bool
result of the C++ function is `≠ scale`).  `scale - scale_min` in the
zoom_out branch is a `size_t` subtraction; it agrees with Nat truncated
subtraction for every `scale ≥ 1` (i.e. whenever the documented invariant
`scale ≥ scale_min` holds on entry). -/
def viewer.calc_scale (scale : Nat) (op : scale_op) (wnd_w wnd_h img_w img_h : Nat) : Nat :=
  match op with
  | .zoom_in =>
    if scale < scale_max then
      let s := scale + scale_step
      if s > scale_max then scale_max else s
    else scale
  | .zoom_out =>
    if scale ≠ scale_min then
      if scale - scale_min > scale_step then scale - scale_step else scale_min
    else scale
  | .optimal =>
    let s1 := if wnd_w < img_w then opt_axis wnd_w img_w else 100
    if wnd_h < img_h then
      let min_scale := opt_axis wnd_h img_h
      if min_scale < s1 then min_scale else s1
    else s1

/-- viewer.hpp, `move_op`. -/
inductive move_op
  | left
  | right
  | up
  | down

/-- viewer.cpp, `viewer::change_position`: returns the new (img_x, img_y).
The guard `img_x > 0 && img_x + img_w < wnd_w && img_y > 0 && img_y + img_h < wnd_h`
returns early when the whole image is strictly inside the window.  As in
`refresh_axis`, every comparison mixing `ssize_t` and `size_t`
(`img_x + img_w < wnd_w` and friends) is performed modulo `2^64`
(`wrap64`), and `wnd_w - img_w` is a `size_t` subtraction converted back
to `ssize_t`. -/
def viewer.change_position (mv : move_op) (wnd_w wnd_h img_w img_h : Nat)
    (img_x img_y : Int) : Int × Int :=
  if img_x > 0 ∧ wrap64 (img_x + (img_w : Int)) < wnd_w ∧
     img_y > 0 ∧ wrap64 (img_y + (img_h : Int)) < wnd_h then
    (img_x, img_y)
  else
    match mv with
    | .left =>
      (if img_x ≤ 0 then
        let x := img_x + (move_step : Int)
        if x > 0 then 0 else x
      else img_x, img_y)
    | .right =>
      (if ¬ wrap64 (img_x + (img_w : Int)) < wnd_w then
        let x := img_x - (move_step : Int)
        if wrap64 (x + (img_w : Int)) < wnd_w then (wnd_w : Int) - (img_w : Int) else x
      else img_x, img_y)
    | .up =>
      (img_x, if img_y ≤ 0 then
        let y := img_y + (move_step : Int)
        if y > 0 then 0 else y
      else img_y)
    | .down =>
      (img_x, if ¬ wrap64 (img_y + (img_h : Int)) < wnd_h then
        let y := img_y - (move_step : Int)
        if wrap64 (y + (img_h : Int)) < wnd_h then (wnd_h : Int) - (img_h : Int) else y
      else img_y)

/-!  ## Correctness of the rounding model

The lemmas below establish the single fact about `rndRat` that the
universal theorems need: rounding is the identity on every quotient that
is an integer below `2^prec` (such a value is exactly representable at
the target precision, and IEEE round-to-nearest returns representable
values unchanged). -/

theorem log2fuel_spec : ∀ (fuel n : Nat), 1 ≤ n → n ≤ fuel →
    2 ^ log2fuel fuel n ≤ n ∧ n < 2 ^ (log2fuel fuel n + 1) := by
  intro fuel
  induction fuel with
  | zero => intro n h1 h2; omega
  | succ fuel ih =>
    intro n h1 h2
    rw [log2fuel]
    by_cases hn : n < 2
    · rw [if_pos hn]
      simp only [pow_zero, zero_add, pow_one]
      omega
    · rw [if_neg hn]
      obtain ⟨ha, hb⟩ := ih (n / 2) (by omega) (by omega)
      have e1 := pow_succ 2 (log2fuel fuel (n / 2))
      have e2 := pow_succ 2 (log2fuel fuel (n / 2) + 1)
      omega

theorem natLog2_spec (n : Nat) (h : 1 ≤ n) :
    2 ^ natLog2 n ≤ n ∧ n < 2 ^ (natLog2 n + 1) :=
  log2fuel_spec n n h le_rfl

theorem natLog2_eq (n E : Nat) (h1 : 2 ^ E ≤ n) (h2 : n < 2 ^ (E + 1)) :
    natLog2 n = E := by
  have hpos : 0 < 2 ^ E := pow_pos (by norm_num) E
  obtain ⟨ha, hb⟩ := natLog2_spec n (by omega)
  have c1 : 2 ^ natLog2 n < 2 ^ (E + 1) := lt_of_le_of_lt ha h2
  have c2 : 2 ^ E < 2 ^ (natLog2 n + 1) := lt_of_le_of_lt h1 hb
  have d1 : natLog2 n < E + 1 := (Nat.pow_lt_pow_iff_right (by norm_num)).mp c1
  have d2 : E < natLog2 n + 1 := (Nat.pow_lt_pow_iff_right (by norm_num)).mp c2
  omega

theorem natLog2_mul_pow (n s : Nat) (hn : 1 ≤ n) :
    natLog2 (n * 2 ^ s) = natLog2 n + s := by
  obtain ⟨ha, hb⟩ := natLog2_spec n hn
  apply natLog2_eq
  · rw [pow_add]
    exact Nat.mul_le_mul_right _ ha
  · have hp : 0 < 2 ^ s := pow_pos (by norm_num) s
    have h1 : n * 2 ^ s < 2 ^ (natLog2 n + 1) * 2 ^ s := (Nat.mul_lt_mul_right hp).mpr hb
    have h2 : 2 ^ (natLog2 n + 1) * 2 ^ s = 2 ^ (natLog2 n + s + 1) := by
      rw [← pow_add]
      congr 1
      omega
    omega

theorem dyLog_int (n b : Nat) (hn : 0 < n) (hb : 0 < b) :
    dyLog (n * b) b = (natLog2 n : Int) := by
  simp only [dyLog]
  have hdiv : n * b * 2 ^ (natLog2 b + 1) / b = n * 2 ^ (natLog2 b + 1) := by
    rw [mul_right_comm]
    exact Nat.mul_div_cancel _ hb
  rw [hdiv, natLog2_mul_pow n _ hn]
  push_cast
  ring

theorem roundNE_exact (q D : Nat) (hD : 0 < D) : roundNE (q * D) D = q := by
  unfold roundNE
  have h1 : q * D / D = q := Nat.mul_div_cancel _ hD
  have h2 : q * D % D = 0 := Nat.mul_mod_left q D
  rw [h1, h2, if_pos (by omega)]

theorem rndRat_nat (prec a b n : Nat) (hb : 0 < b) (ha : a = n * b)
    (hlt : n < 2 ^ prec) : ∃ k, rndRat prec a b = ⟨n * 2 ^ k, k⟩ := by
  rcases Nat.eq_zero_or_pos n with h0 | hn
  · subst h0
    refine ⟨0, ?_⟩
    subst ha
    simp [rndRat]
  · have hapos : 0 < a := by subst ha; exact Nat.mul_pos hn hb
    have ha0 : ¬ a = 0 := by omega
    have hdy : dyLog a b = (natLog2 n : Int) := by rw [ha]; exact dyLog_int n b hn hb
    have hL : natLog2 n < prec := by
      obtain ⟨hsp, _⟩ := natLog2_spec n hn
      exact (Nat.pow_lt_pow_iff_right (by norm_num)).mp (lt_of_le_of_lt hsp hlt)
    unfold rndRat
    rw [if_neg ha0, hdy]
    cases hm : (natLog2 n : Int) - ((prec : Int) - 1) with
    | ofNat k =>
      have hm' : (natLog2 n : Int) - ((prec : Int) - 1) = (k : Int) := hm
      have hk : k = 0 := by omega
      subst hk
      refine ⟨0, ?_⟩
      show Dyadic.mk (roundNE a (b * 2 ^ 0) * 2 ^ 0) 0 = Dyadic.mk (n * 2 ^ 0) 0
      have hb1 : b * 2 ^ 0 = b := by norm_num
      rw [hb1, ha, roundNE_exact n b hb]
    | negSucc k =>
      refine ⟨k + 1, ?_⟩
      show Dyadic.mk (roundNE (a * 2 ^ (k + 1)) b) (k + 1) = Dyadic.mk (n * 2 ^ (k + 1)) (k + 1)
      have harr : a * 2 ^ (k + 1) = n * 2 ^ (k + 1) * b := by rw [ha]; ring
      rw [harr, roundNE_exact _ b hb]

theorem truncF_mk (n k : Nat) : truncF ⟨n * 2 ^ k, k⟩ = n := by
  unfold truncF
  exact Nat.mul_div_cancel _ (pow_pos (by norm_num) k)

/-- `x` is the exact floating-point image of the integer `n`. -/
def IsExactNat (x : Dyadic) (n : Nat) : Prop := ∃ k, x = ⟨n * 2 ^ k, k⟩

theorem IsExactNat.truncF_eq {x : Dyadic} {n : Nat} (h : IsExactNat x n) :
    truncF x = n := by
  obtain ⟨k, rfl⟩ := h
  exact truncF_mk n k

theorem toF32_exact (n : Nat) (h : n < 2 ^ 24) : IsExactNat (toF32 n) n :=
  rndRat_nat 24 n 1 n (by norm_num) (by ring) h

theorem scale_exact_100 : IsExactNat (f64toF32 (f64divNat (toF32 100) 100)) 1 := by
  obtain ⟨k1, h1⟩ := toF32_exact 100 (by norm_num)
  rw [h1]
  obtain ⟨k2, h2⟩ :=
    rndRat_nat 53 (100 * 2 ^ k1) (100 * 2 ^ k1) 1 (by positivity) (by ring) (by norm_num)
  show IsExactNat (f64toF32 (rndRat 53 (100 * 2 ^ k1) (100 * 2 ^ k1))) 1
  rw [h2]
  show IsExactNat (rndRat 24 (1 * 2 ^ k2) (2 ^ k2)) 1
  exact rndRat_nat 24 (1 * 2 ^ k2) (2 ^ k2) 1 (by positivity) rfl (by norm_num)

theorem f32mul_one_exact {x y : Dyadic} {n : Nat} (hx : IsExactNat x 1)
    (hy : IsExactNat y n) (h : n < 2 ^ 24) : IsExactNat (f32mul x y) n := by
  obtain ⟨k1, rfl⟩ := hx
  obtain ⟨k2, rfl⟩ := hy
  show IsExactNat (rndRat 24 (1 * 2 ^ k1 * (n * 2 ^ k2)) (2 ^ (k1 + k2))) n
  exact rndRat_nat 24 _ _ n (by positivity) (by ring) h

theorem f32div_one_exact {x y : Dyadic} {n : Nat} (hx : IsExactNat x n)
    (hy : IsExactNat y 1) (h : n < 2 ^ 24) : IsExactNat (f32div x y) n := by
  obtain ⟨k1, rfl⟩ := hx
  obtain ⟨k2, rfl⟩ := hy
  show IsExactNat (rndRat 24 (n * 2 ^ k1 * 2 ^ k2) (1 * 2 ^ k2 * 2 ^ k1)) n
  exact rndRat_nat 24 _ _ n (by positivity) (by ring) h


/-!  ## List plumbing for the resize identity  -/

theorem map_range_getD (w : Nat) : ∀ (l : List Nat), w ≤ l.length →
    (List.range w).map (fun x => l.getD x 0) = l.take w := by
  induction w with
  | zero => intro l _; simp
  | succ w ih =>
    intro l hlen
    match l with
    | [] => simp at hlen
    | a :: t =>
      rw [List.range_succ_eq_map, List.map_cons, List.map_map]
      have hfun : ((fun x => (a :: t).getD x 0) ∘ Nat.succ) = (fun x => t.getD x 0) := by
        funext x
        simp
      rw [hfun, List.getD_cons_zero, List.take_succ_cons, ih t (by simpa using hlen)]

theorem flatMap_congr_mem {l : List Nat} {f g : Nat → List Nat}
    (h : ∀ y ∈ l, f y = g y) : l.flatMap f = l.flatMap g := by
  induction l with
  | nil => simp
  | cons a t ih =>
    rw [List.flatMap_cons, List.flatMap_cons, h a (by simp),
      ih (fun y hy => h y (by simp [hy]))]

theorem flatMap_range_getD (w : Nat) : ∀ (h : Nat) (l : List Nat), l.length = w * h →
    (List.range h).flatMap
      (fun y => (List.range w).map (fun x => l.getD (y * w + x) 0)) = l := by
  intro h
  induction h with
  | zero =>
    intro l hlen
    simp only [Nat.mul_zero] at hlen
    rw [List.length_eq_zero] at hlen
    subst hlen
    simp
  | succ h ih =>
    intro l hlen
    rw [List.range_succ_eq_map, List.flatMap_cons, List.flatMap_map]
    have hw_le : w ≤ l.length := by
      have : w * 1 ≤ w * (h + 1) := Nat.mul_le_mul_left w (by omega)
      omega
    have hrow0 : (List.range w).map (fun x => l.getD (0 * w + x) 0) = l.take w := by
      have : (fun x => l.getD (0 * w + x) 0) = (fun x => l.getD x 0) := by
        funext x
        norm_num
      rw [this, map_range_getD w l hw_le]
    have hdropD : ∀ i, (l.drop w).getD i 0 = l.getD (w + i) 0 := by
      intro i
      simp [List.getD_eq_getElem?_getD, List.getElem?_drop]
    have hrest : (List.range h).flatMap
        (fun y => (List.range w).map (fun x => l.getD (Nat.succ y * w + x) 0)) =
        (List.range h).flatMap
          (fun y => (List.range w).map (fun x => (l.drop w).getD (y * w + x) 0)) := by
      apply flatMap_congr_mem
      intro y _
      apply List.map_congr_left
      intro x _
      rw [hdropD]
      congr 1
      rw [Nat.succ_mul]
      generalize y * w = t
      omega
    have hlen' : (l.drop w).length = w * h := by
      rw [List.length_drop]
      have hsplit : w * (h + 1) = w * h + w := by ring
      omega
    calc (List.range w).map (fun x => l.getD (0 * w + x) 0) ++
          (List.range h).flatMap
            (fun y => (List.range w).map (fun x => l.getD (Nat.succ y * w + x) 0))
        = l.take w ++ (l.drop w) := by rw [hrow0, hrest, ih (l.drop w) hlen']
      _ = l := List.take_append_drop w l

/-- C6 (amended): `image::resize` at percent = 100 is pixel-identical to the
input — same width, height, transparency flag and data — for every
well-formed image whose width and height are below `2^24`: in that range
every step of the float computation (the scale `100/100.0`, the dimension
products, the per-pixel index quotients) is exact.  (As stated over all
images the claim fails: at width `2^24 + 1` the conversion of the width to
`float` already rounds, see the counterexample.) -/
theorem c6_resize_100_identity (img : image) (hw : img.width < 2 ^ 24)
    (hh : img.height < 2 ^ 24) (hlen : img.data.length = img.width * img.height) :
    img.resize 100 = img := by
  obtain ⟨data, w, h, t⟩ := img
  replace hw : w < 2 ^ 24 := hw
  replace hh : h < 2 ^ 24 := hh
  replace hlen : data.length = w * h := hlen
  simp only [image.resize]
  have hscale := scale_exact_100
  have hwp : truncF (f32mul (f64toF32 (f64divNat (toF32 100) 100)) (toF32 w)) = w :=
    (f32mul_one_exact hscale (toF32_exact w hw) hw).truncF_eq
  have hhp : truncF (f32mul (f64toF32 (f64divNat (toF32 100) 100)) (toF32 h)) = h :=
    (f32mul_one_exact hscale (toF32_exact h hh) hh).truncF_eq
  have hsamp : ∀ i : Nat, i < 2 ^ 24 →
      truncF (f32div (toF32 i) (f64toF32 (f64divNat (toF32 100) 100))) = i :=
    fun i hi => (f32div_one_exact (toF32_exact i hi) hscale hi).truncF_eq
  rw [image.mk.injEq]
  refine ⟨?_, hwp, hhp, rfl⟩
  rw [hwp, hhp]
  have hdata : (List.range h).flatMap (fun y => (List.range w).map (fun x =>
      data.getD (truncF (f32div (toF32 y) (f64toF32 (f64divNat (toF32 100) 100))) * w
        + truncF (f32div (toF32 x) (f64toF32 (f64divNat (toF32 100) 100)))) 0)) =
      (List.range h).flatMap (fun y => (List.range w).map (fun x =>
      data.getD (y * w + x) 0)) := by
    apply flatMap_congr_mem
    intro y hy
    apply List.map_congr_left
    intro x hx
    have hy' : y < h := List.mem_range.mp hy
    have hx' : x < w := List.mem_range.mp hx
    rw [hsamp y (by omega), hsamp x (by omega)]
  rw [hdata]
  exact flatMap_range_getD w h data hlen

/-!  ## add_grid lemmas  -/

/-- Blending the default cell color 0x404040 behind a fully transparent
pixel (`alpha = 0`) yields 0x003F3F3F: each color channel is
`(0x40 * 255) >> 8 = 0x3F`, one less than the channel of `color_a`, and
the alpha channel is `(0 * 255 + alpha_dst * 0) >> 8 = 0`. -/
theorem blendPixel_404040_alpha0 (dst : Nat) :
    blendPixel 0x404040 dst 0 = 0x003F3F3F := by
  unfold blendPixel
  simp only [Nat.mul_zero]
  simp only [Nat.add_zero]
  simp only [Nat.sub_zero]
  decide

/-!  ## Claim theorems  -/

/-- C1 (counterexample): the claim states that for a displayed size at most
the window size the refresh placement sets the offset to exactly
`(window_size - image_size) / 2`.  At window size 4 and image size 1 the
code computes `4/2 - 1/2 = 2`, while `(4-1)/2 = 1`. -/
theorem c1_centering_counterexample :
    viewer.refresh_axis 4 1 0 0 = 2 ∧ (2 : Int) ≠ ((4 - 1) / 2 : Nat) := by
  decide

/-- C1 (amended): for a displayed size strictly below the window size,
refresh centers the axis with `offset = window_size/2 - image_size/2`
(each term an integer division), which equals `(window_size - image_size)/2`
except when the window size is even and the image size odd, where it is one
larger. -/
theorem c1_centering (wnd img : Nat) (old_x : Int) (old_w : Nat) (h : img < wnd) :
    viewer.refresh_axis wnd img old_x old_w =
      (((wnd - img) / 2 + if wnd % 2 = 0 ∧ img % 2 = 1 then 1 else 0 : Nat) : Int) := by
  unfold viewer.refresh_axis
  rw [if_pos h]
  congr 1
  split
  · omega
  · omega

/-- C1 (witness): window 5, image 2 on an axis: offset (5-2)/2 = 1. -/
theorem c1_centering_witness :
    viewer.refresh_axis 5 2 7 9 =
      (((5 - 2) / 2 + if 5 % 2 = 0 ∧ 2 % 2 = 1 then 1 else 0 : Nat) : Int) :=
  c1_centering 5 2 7 9 (by decide)

/-- C2 (code bug): window width 100, previous displayed width 2000 at
offset -1900 (image panned fully right, a state the pan clamp itself
produces), new displayed width 400 (zoom to 20%).  The recomputation
yields offset -1100, and the far-edge clamp does not fire because
`img_x + img.width < wnd_w` is evaluated in unsigned arithmetic
(`wrap64 (-700) = 2^64 - 700`, which is not `< 100`), so the final
position violates `offset + image_size ≥ window_size`: the window is left
entirely uncovered. -/
theorem c2_refresh_uncovered :
    viewer.refresh_axis 100 400 (-1900) 2000 = -1100 ∧
      ¬ ((-1100 : Int) + 400 ≥ 100) := by
  decide

/-- C3 (counterexample): the claim states
`scale = min(100, floor(100*wnd_w/img_w), floor(100*wnd_h/img_h))`.
For a 100x50 image in a 59x100 window the exact formula gives
`min(100, 59, 200) = 59`, but the code computes
`100 * (1.0f / (100.0f / 59.0f))` in single precision, which truncates
to 58. -/
theorem c3_optimal_counterexample :
    viewer.calc_scale 100 .optimal 59 100 100 50 = 58 ∧
      min 100 (min (100 * 59 / 100) (100 * 100 / 50)) = 59 ∧ (58 : Nat) ≠ 59 := by
  decide

/-- C3 (amended): when the source image fits the window at 100% on both
axes the optimal scale is exactly 100 — the image is never upscaled
automatically (this part of the claim is exact: no float arithmetic is
reached).  When an axis does not fit, the scale is the single-precision
evaluation of `100 * (1/(img/wnd))` truncated to an integer, which can
fall below the exact `floor(100*wnd/img)` (see the counterexample). -/
theorem c3_optimal_no_upscale (scale wnd_w wnd_h img_w img_h : Nat)
    (h1 : img_w ≤ wnd_w) (h2 : img_h ≤ wnd_h) :
    viewer.calc_scale scale .optimal wnd_w wnd_h img_w img_h = 100 := by
  have g1 : ¬ wnd_w < img_w := by omega
  have g2 : ¬ wnd_h < img_h := by omega
  simp [viewer.calc_scale, g1, g2]

/-- C3 (witness): a 100x100 image in a 200x200 window keeps scale 100
(the spec example). -/
theorem c3_optimal_no_upscale_witness :
    viewer.calc_scale 100 .optimal 200 200 100 100 = 100 :=
  c3_optimal_no_upscale 100 200 200 100 100 (by decide) (by decide)

/-- C4 (code bug): zoom-to-optimal for a 12800x12800 image in a 100x100
window computes `100 * (1.0f/128.0f) = 0.78125` (all operations exact)
and truncates it to scale 0, below the code's own documented minimum
`scale_min = 1`; the invariant `scale ∈ [1, 1000]` is violated. -/
theorem c4_optimal_scale_zero :
    viewer.calc_scale 100 .optimal 100 100 12800 12800 = 0 ∧ scale_min = 1 := by
  decide

/-- Concrete image used for the C5 counterexample (data is irrelevant to
the output dimensions). -/
def imgC5 : image := ⟨List.replicate 3355445 0xFF000000, 3355445, 1, false⟩

/-- C5 (counterexample): at percent 1000 and width 3355445 the claim's
`floor(percent/100 * width) = 33554450`, but `10.0f * 3355445.0f` rounds
(ties-to-even at 24 bits) to 33554448, so the resize output width is
33554448. -/
theorem c5_resize_dims_counterexample :
    (imgC5.resize 1000).width = 33554448 ∧
      1000 * imgC5.width / 100 = 33554450 ∧ (33554448 : Nat) ≠ 33554450 := by
  decide

/-- Concrete 123x45 image used for the C5 amended theorem. -/
def imgC5w : image := ⟨List.replicate (123 * 45) 0xFF000000, 123, 45, false⟩

/-- C5 (amended): the resize output dimensions are the single-precision
evaluation of `scale * dim` truncated, with
`scale = float(double(percent)/100.0)`; this agrees with
`floor(percent/100 * dim)` on the percent values {1, 50, 100, 200, 1000}
for the non-trivial source size 123x45 (but not for every size, see the
counterexample). -/
theorem c5_resize_dims_examples :
    ((imgC5w.resize 1).width = 1 * 123 / 100 ∧ (imgC5w.resize 1).height = 1 * 45 / 100) ∧
    ((imgC5w.resize 50).width = 50 * 123 / 100 ∧ (imgC5w.resize 50).height = 50 * 45 / 100) ∧
    ((imgC5w.resize 100).width = 100 * 123 / 100 ∧ (imgC5w.resize 100).height = 100 * 45 / 100) ∧
    ((imgC5w.resize 200).width = 200 * 123 / 100 ∧ (imgC5w.resize 200).height = 200 * 45 / 100) ∧
    ((imgC5w.resize 1000).width = 1000 * 123 / 100 ∧ (imgC5w.resize 1000).height = 1000 * 45 / 100) := by
  decide

/-- Concrete image used for the C6 counterexample: a 16777217x1 image
(width `2^24 + 1`, not representable in single precision). -/
def imgC6 : image := ⟨List.replicate (2 ^ 24 + 1) 0xFF000000, 2 ^ 24 + 1, 1, false⟩

/-- C6 (counterexample): `resize(img, 100)` is claimed pixel-identical for
every image, but at width `2^24 + 1` the conversion of the width to
`float` rounds to `2^24`, so the output width differs from the input
width. -/
theorem c6_resize_100_counterexample :
    (imgC6.resize 100).width = 2 ^ 24 ∧ imgC6.width = 2 ^ 24 + 1 ∧
      (imgC6.resize 100).width ≠ imgC6.width := by
  decide

/-- Concrete 3x2 image used for the C6 witness. -/
def imgC6w : image := ⟨[5, 6, 7, 8, 9, 10], 3, 2, false⟩

/-- C6 (witness): resize at 100% is the identity on a concrete 3x2 image. -/
theorem c6_resize_100_identity_witness : imgC6w.resize 100 = imgC6w :=
  c6_resize_100_identity imgC6w (by decide) (by decide) (by decide)

/-- Concrete image used for C7: 11x1, all pixels fully transparent
(alpha = 0); the pixel at x = 10 sits at checkerboard parity "A"
(`(10/10) % 2 = 1 ≠ 0 = (0/10) % 2`). -/
def imgC7 : image := ⟨List.replicate 11 0, 11, 1, true⟩

/-- C7 (counterexample): the claim states that a fully transparent pixel at
parity "A" becomes exactly `color_a = 0x404040`.  The blend actually
yields `0x003F3F3F`: each channel is `(0x40 * 255) >> 8 = 0x3F`, one less
than the corresponding channel of `color_a`. -/
theorem c7_add_grid_counterexample :
    (imgC7.add_grid 10 0x404040).data.getD 10 0 = 0x003F3F3F ∧
      (0x003F3F3F : Nat) ≠ 0x00404040 := by
  decide

/-- C7 (amended): for every pixel with alpha = 0 at a cell of parity "A"
(the parity of `(x / cell) % 2` differs from `(y / cell) % 2`), add_grid
with the default color yields the integer blend of `color_a` with the
transparent pixel: every color channel is `(0x40 * 255) >> 8 = 0x3F` (one
less than `color_a`'s channel) and the alpha channel is blended by the
same formula (yielding 0), i.e. the pixel becomes exactly `0x003F3F3F`. -/
theorem c7_add_grid_alpha0_cell_a (img : image) (i : Nat)
    (hwh : i < img.width * img.height) (hlen : i < img.data.length)
    (halpha : ((img.data.getD i 0) >>> 24) % 256 = 0)
    (hpar : ((i % img.width) / 10) % 2 ≠ ((i / img.width) / 10) % 2) :
    (img.add_grid 10 0x404040).data.getD i 0 = 0x003F3F3F := by
  simp only [image.add_grid]
  rw [List.getD_eq_getElem?_getD, List.getElem?_map, List.getElem?_range hlen]
  simp only [Option.map_some', Option.getD_some]
  rw [if_pos hwh, if_pos (by rw [halpha]; decide), if_pos hpar, halpha]
  exact blendPixel_404040_alpha0 _

/-- C7 (witness): the transparent pixel at x = 10 of the concrete 11x1
image becomes 0x003F3F3F. -/
theorem c7_add_grid_alpha0_cell_a_witness :
    (imgC7.add_grid 10 0x404040).data.getD 10 0 = 0x003F3F3F :=
  c7_add_grid_alpha0_cell_a imgC7 10 (by decide) (by decide) (by decide) (by decide)

/-- C8: add_grid leaves every pixel whose alpha byte equals 255
byte-for-byte unchanged, for every image, cell size and base color
(equivalently: only pixels with alpha ≠ 255 are ever modified). -/
theorem c8_add_grid_opaque_untouched (img : image) (step clr i : Nat)
    (h : ((img.data.getD i 0) >>> 24) % 256 = 255) :
    (img.add_grid step clr).data.getD i 0 = img.data.getD i 0 := by
  simp only [image.add_grid]
  rw [List.getD_eq_getElem?_getD, List.getElem?_map]
  by_cases hi : i < img.data.length
  · rw [List.getElem?_range hi]
    simp only [Option.map_some', Option.getD_some]
    rw [h]
    simp
  · rw [List.getElem?_eq_none (by simpa using Nat.le_of_not_lt hi)]
    rw [List.getD_eq_getElem?_getD, List.getElem?_eq_none (Nat.le_of_not_lt hi)]
    rfl

/-- Concrete image used for the C8 witness: pixel 0 is fully opaque. -/
def imgC8w : image := ⟨[0xFF112233, 0x80445566], 2, 1, true⟩

/-- C8 (witness): the opaque pixel 0xFF112233 is unchanged, even with a
non-default cell size and color. -/
theorem c8_add_grid_opaque_untouched_witness :
    (imgC8w.add_grid 7 0x123456).data.getD 0 0 = imgC8w.data.getD 0 0 :=
  c8_add_grid_opaque_untouched imgC8w 7 0x123456 0 (by decide)

/-- C9: pan left is a no-op whenever the image lies fully inside the window
on the horizontal axis (`0 ≤ img_x` and `img_x + img_w ≤ wnd_w`),
regardless of the vertical state: if `img_x > 0` the left branch does
nothing, and if `img_x = 0` the step is immediately clamped back to 0. -/
theorem c9_pan_left_noop (wnd_w wnd_h img_w img_h : Nat) (img_x img_y : Int)
    (h0 : 0 ≤ img_x) (h1 : img_x + (img_w : Int) ≤ (wnd_w : Int)) :
    viewer.change_position .left wnd_w wnd_h img_w img_h img_x img_y = (img_x, img_y) := by
  unfold viewer.change_position
  split
  · rfl
  · show ((if img_x ≤ 0 then
        (if img_x + (move_step : Int) > 0 then 0 else img_x + (move_step : Int))
      else img_x), img_y) = (img_x, img_y)
    by_cases hx : img_x ≤ 0
    · have hx0 : img_x = 0 := le_antisymm hx h0
      subst hx0
      simp [move_step]
    · rw [if_neg hx]

/-- C9 (witness): image width 50 inside window width 100 at x = 20; the
image is taller than the window and panned on the vertical axis
(y = -50), yet pan left leaves the position unchanged. -/
theorem c9_pan_left_noop_witness :
    viewer.change_position .left 100 100 50 300 20 (-50) = (20, -50) :=
  c9_pan_left_noop 100 100 50 300 20 (-50) (by decide) (by decide)

/-- C10: for every file whose readable content is shorter than 16 bytes,
`load_image` fails with the system error raised by the fixed-size header
read, before any signature matcher or decoder runs: it is never reported
as "Unsupported format" and never dispatched to any decoder, even if the
content starts with a valid JPEG or PNG signature. -/
theorem c10_load_image_short (file : List Nat) (h : file.length < 16) :
    load_image file = .sys_error ∧ load_image file ≠ .unsupported ∧
      ∀ d, load_image file ≠ .decoded d := by
  have he : load_image file = .sys_error := by
    unfold load_image
    rw [if_pos h]
  refine ⟨he, by rw [he]; decide, ?_⟩
  intro d
  rw [he]
  intro hc
  exact load_result.noConfusion hc

/-- C10 (witness): a 2-byte file starting with the valid JPEG signature
0xFF 0xD8 still fails with the system error. -/
theorem c10_load_image_short_witness :
    load_image [0xff, 0xd8] = load_result.sys_error :=
  (c10_load_image_short [0xff, 0xd8] (by decide)).1
